import Mathlib

/-!
# Verification of the `basic_cleaning` pipeline step

Shallow embedding of `src/basic_cleaning/run.py` (`go_function`).

The program reads a CSV snapshot into a dataframe, filters rows to the closed
price interval `[min_price, max_price]`, converts the `last_review` column to
datetimes, filters rows to the geographic bounding box
`longitude ∈ [-74.25, -73.50]`, `latitude ∈ [40.5, 41.2]`, writes the result to
a CSV file without the index column, publishes it as an artifact, and removes
the local file.

A cell value is a rational number, a string, a normalized timestamp (represented
abstractly by its epoch offset, a rational), or the null marker (pandas
`NaN`/`NaT`).  A row is an ordered association list from column names to values
(the spec's "mapping from column name to value"); a dataframe is a header
(column list) together with the row list.  Date parsing is parameterized by an
arbitrary partial parsing function `parse : String → Option ℚ`, standing for
the library's string-to-timestamp parser; all theorems hold for every such
parser.
-/

namespace BasicCleaning

/-- A cell value of the dataframe. -/
inductive Val where
  /-- a numeric value -/
  | num (x : ℚ)
  /-- a raw string value -/
  | str (s : String)
  /-- a normalized timestamp, represented by its epoch offset -/
  | date (t : ℚ)
  /-- the null marker (pandas NaN / NaT) -/
  | null
deriving DecidableEq, Repr

/-- `Series.between`: membership in the closed interval `[lo, hi]`.
Non-numeric values (including null: NaN comparisons are always false) yield
`false`. -/
def Val.between (v : Val) (lo hi : ℚ) : Bool :=
  match v with
  | .num x => decide (lo ≤ x) && decide (x ≤ hi)
  | _ => false

/-- A row: an ordered association list from column name to value. -/
abbrev Row := List (String × Val)

/-- Value of column `c` in row `r`; a field missing from the row reads as the
null marker (`read_csv` fills absent trailing fields with NaN). -/
def Row.get (r : Row) (c : String) : Val :=
  match r with
  | [] => .null
  | (c', v) :: rest => if c' = c then v else Row.get rest c

/-- Overwrite the value of column `c` in row `r` (first occurrence), appending
the binding when the column is absent from the row. -/
def Row.set (r : Row) (c : String) (v : Val) : Row :=
  match r with
  | [] => [(c, v)]
  | (c', v') :: rest => if c' = c then (c, v) :: rest else (c', v') :: Row.set rest c v

/-- A dataframe: a header listing the column names, and the rows. -/
structure DataFrame where
  header : List String
  rows : List Row
deriving DecidableEq, Repr

/-- The bounding-box literal `-74.25` of line 46, written as an explicit
rational so that proofs can evaluate it (`lonLo_eq` checks the value). -/
def lonLo : ℚ := mkRat (-297) 4

/-- The bounding-box literal `-73.50` of line 46. -/
def lonHi : ℚ := mkRat (-147) 2

/-- The bounding-box literal `40.5` of line 46. -/
def latLo : ℚ := mkRat 81 2

/-- The bounding-box literal `41.2` of line 46. -/
def latHi : ℚ := mkRat 206 5

theorem lonLo_eq : lonLo = -74.25 := by rw [lonLo, Rat.mkRat_eq_div]; norm_num

theorem lonHi_eq : lonHi = -73.50 := by rw [lonHi, Rat.mkRat_eq_div]; norm_num

theorem latLo_eq : latLo = 40.5 := by rw [latLo, Rat.mkRat_eq_div]; norm_num

theorem latHi_eq : latHi = 41.2 := by rw [latHi, Rat.mkRat_eq_div]; norm_num

/-- Errors raised while cleaning the dataframe. -/
inductive CleanError where
  /-- `df[c]` with `c` not a column: KeyError -/
  | missingColumn (c : String)
  /-- `pd.to_datetime` on a string no parser accepts (default `errors` mode
  raises) -/
  | unparsableDate
deriving DecidableEq, Repr

/-- `df[c]` as a series: the values of column `c`, provided `c` is in the
header; KeyError otherwise. -/
def DataFrame.getCol (df : DataFrame) (c : String) : Except CleanError (List Val) :=
  if c ∈ df.header then .ok (df.rows.map (fun r => Row.get r c)) else .error (.missingColumn c)

/-- `df[idx]` for a boolean mask `idx` aligned with the rows: keep the rows
whose mask entry is true. -/
def DataFrame.filterMask (df : DataFrame) (mask : List Bool) : DataFrame :=
  ⟨df.header, ((df.rows.zip mask).filter (fun rb => rb.2)).map (fun rb => rb.1)⟩

/-- `df[c] = vals`: write the series `vals` back into column `c` of every row;
a column not yet in the header is appended to it. -/
def DataFrame.setCol (df : DataFrame) (c : String) (vals : List Val) : DataFrame :=
  ⟨if c ∈ df.header then df.header else df.header ++ [c],
   (df.rows.zip vals).map (fun rv => Row.set rv.1 c rv.2)⟩

/-- One cell of `pd.to_datetime` under the default `errors` mode: null (NaN)
becomes NaT (kept as null), a timestamp stays itself, a numeric value is
interpreted as an epoch offset, a string is parsed — and an unparsable string
raises. -/
def toDatetimeVal (parse : String → Option ℚ) : Val → Except CleanError Val
  | .null => .ok .null
  | .date t => .ok (.date t)
  | .num x => .ok (.date x)
  | .str s =>
    match parse s with
    | some t => .ok (.date t)
    | none => .error .unparsableDate

/-- The dataframe transformation of `go_function` (lines 41–47 of `run.py`):

```
idx = data_frame[price].between(min_price, max_price)
data_frame = data_frame[idx].copy()
data_frame[last_review] = pd.to_datetime(data_frame[last_review])
idx = data_frame[longitude].between(-74.25, -73.50) & data_frame[latitude].between(40.5, 41.2)
data_frame = data_frame[idx].copy()
```

an uncaught Python exception is the `Except.error` case, which every later
step propagates. -/
def cleanFrame (parse : String → Option ℚ) (df : DataFrame) (minPrice maxPrice : ℚ) :
    Except CleanError DataFrame := do
  let priceCol ← df.getCol "price"
  let df1 := df.filterMask (priceCol.map (fun v => v.between minPrice maxPrice))
  let lrCol ← df1.getCol "last_review"
  let lrConv ← lrCol.mapM (toDatetimeVal parse)
  let df2 := df1.setCol "last_review" lrConv
  let lonCol ← df2.getCol "longitude"
  let latCol ← df2.getCol "latitude"
  pure (df2.filterMask (List.zipWith (fun a b => a && b)
    (lonCol.map (fun v => v.between lonLo lonHi))
    (latCol.map (fun v => v.between latLo latHi))))

/-- The price filter predicate of line 41: `price` between the bounds. -/
def keepPrice (lo hi : ℚ) (r : Row) : Bool :=
  (Row.get r "price").between lo hi

/-- The bounding-box predicate of line 46: `longitude ∈ [-74.25, -73.50]` and
`latitude ∈ [40.5, 41.2]`. -/
def keepGeo (r : Row) : Bool :=
  (Row.get r "longitude").between lonLo lonHi &&
    (Row.get r "latitude").between latLo latHi

/-- The row-wise effect of the whole pipeline: a row that passes the price
filter has its `last_review` converted, and survives iff the converted row also
passes the bounding box; a row whose conversion would raise contributes
nothing (the run aborts in that case, which `cleanFrame_ok_*` account for). -/
def cleanRow (parse : String → Option ℚ) (lo hi : ℚ) (r : Row) : Option Row :=
  if keepPrice lo hi r then
    match toDatetimeVal parse (Row.get r "last_review") with
    | .ok v =>
      if keepGeo (Row.set r "last_review" v) then some (Row.set r "last_review" v) else none
    | .error _ => none
  else none

/-- The effect of `pd.to_datetime` on a single row, as an `Option`:  `none`
when the conversion raises. -/
def convRow (parse : String → Option ℚ) (r : Row) : Option Row :=
  (toDatetimeVal parse (Row.get r "last_review")).toOption.map
    (fun v => Row.set r "last_review" v)

theorem Row.get_set_self (r : Row) (c : String) (v : Val) :
    Row.get (Row.set r c v) c = v := by
  induction r with
  | nil => simp [Row.set, Row.get]
  | cons p rest ih =>
    obtain ⟨c', v'⟩ := p
    by_cases h : c' = c
    · simp [Row.set, h, Row.get]
    · simp [Row.set, h, Row.get, ih]

theorem Row.get_set_ne (r : Row) (c c2 : String) (v : Val) (h : c ≠ c2) :
    Row.get (Row.set r c v) c2 = Row.get r c2 := by
  induction r with
  | nil => simp [Row.set, Row.get, h]
  | cons p rest ih =>
    obtain ⟨c', v'⟩ := p
    by_cases h2 : c' = c
    · subst h2
      simp [Row.set, Row.get, h]
    · simp [Row.set, h2, Row.get, ih]

theorem Row.set_set (r : Row) (c : String) (v w : Val) :
    Row.set (Row.set r c v) c w = Row.set r c w := by
  induction r with
  | nil => simp [Row.set]
  | cons p rest ih =>
    obtain ⟨c', v'⟩ := p
    by_cases h : c' = c
    · simp [Row.set, h]
    · simp [Row.set, h, ih]

/-- The bounding-box predicate ignores `last_review`. -/
theorem keepGeo_set_lastReview (r : Row) (v : Val) :
    keepGeo (Row.set r "last_review" v) = keepGeo r := by
  unfold keepGeo
  rw [Row.get_set_ne r "last_review" "longitude" v (by decide),
    Row.get_set_ne r "last_review" "latitude" v (by decide)]

/-- The price predicate ignores `last_review`. -/
theorem keepPrice_set_lastReview (lo hi : ℚ) (r : Row) (v : Val) :
    keepPrice lo hi (Row.set r "last_review" v) = keepPrice lo hi r := by
  unfold keepPrice
  rw [Row.get_set_ne r "last_review" "price" v (by decide)]

theorem List.zip_map_self_filter {α : Type} (f : α → Bool) (l : List α) :
    ((l.zip (l.map f)).filter (fun rb => rb.2)).map (fun rb => rb.1) = l.filter f := by
  induction l with
  | nil => simp
  | cons a t ih =>
    by_cases h : f a
    · simp [h, ih]
    · simp [h, ih]

/-- `df[df.rows.map f]` is `df.rows.filter f`. -/
theorem DataFrame.filterMask_map (df : DataFrame) (f : Row → Bool) :
    df.filterMask (df.rows.map f) = ⟨df.header, df.rows.filter f⟩ := by
  unfold DataFrame.filterMask
  rw [List.zip_map_self_filter]

/-- `DataFrame.filterMask_map` for a dataframe given by its fields. -/
theorem DataFrame.filterMask_mk_map (h : List String) (l : List Row) (f : Row → Bool) :
    DataFrame.filterMask ⟨h, l⟩ (List.map f l) = ⟨h, l.filter f⟩ := by
  simp only [DataFrame.filterMask]
  rw [List.zip_map_self_filter]

theorem List.zipWith_map_self {α β γ δ : Type} (g : β → γ → δ) (f1 : α → β) (f2 : α → γ)
    (l : List α) :
    List.zipWith g (l.map f1) (l.map f2) = l.map (fun x => g (f1 x) (f2 x)) := by
  induction l with
  | nil => simp
  | cons a t ih => simp [ih]

theorem List.mapM_ok_of_forall_ok {α β ε : Type} (f : α → Except ε β) (l : List α)
    (h : ∀ a ∈ l, ∃ b, f a = .ok b) : ∃ res, l.mapM f = .ok res := by
  induction l with
  | nil => exact ⟨[], rfl⟩
  | cons a t ih =>
    obtain ⟨b, hb⟩ := h a (List.mem_cons_self a t)
    obtain ⟨res, hres⟩ := ih (fun x hx => h x (List.mem_cons_of_mem a hx))
    refine ⟨b :: res, ?_⟩
    rw [List.mapM_cons, hb, hres]
    rfl

theorem okBind {ε α β : Type} (a : α) (f : α → Except ε β) :
    (Except.ok a >>= f : Except ε β) = f a := rfl

theorem errorBind {ε α β : Type} (e : ε) (f : α → Except ε β) :
    ((Except.error e : Except ε α) >>= f) = .error e := rfl

theorem List.forall_ok_of_mapM_ok {α β ε : Type} (f : α → Except ε β) (l : List α)
    (res : List β) (h : l.mapM f = .ok res) : ∀ a ∈ l, ∃ b, f a = .ok b := by
  induction l generalizing res with
  | nil => simp
  | cons a t ih =>
    rw [List.mapM_cons] at h
    cases hfa : f a with
    | error e => rw [hfa] at h; exact Except.noConfusion h
    | ok b =>
      rw [hfa] at h
      cases hrest : t.mapM f with
      | error e => rw [hrest] at h; exact Except.noConfusion h
      | ok res2 =>
        rw [hrest] at h
        intro x hx
        rcases List.mem_cons.mp hx with h1 | h2
        · exact ⟨b, h1 ▸ hfa⟩
        · exact ih res2 hrest x h2

/-- Writing the converted `last_review` series back into the rows is the
row-wise conversion `convRow`, provided the whole series converted without
raising. -/
theorem zip_set_of_mapM_ok (parse : String → Option ℚ) (l : List Row) (col : List Val)
    (h : (l.map (fun r => Row.get r "last_review")).mapM (toDatetimeVal parse) = .ok col) :
    (l.zip col).map (fun rv => Row.set rv.1 "last_review" rv.2)
      = l.filterMap (convRow parse) := by
  induction l generalizing col with
  | nil =>
    have : col = [] := by
      rw [List.map_nil, List.mapM_nil] at h
      exact (Except.ok.inj h).symm
    subst this
    rfl
  | cons r t ih =>
    rw [List.map_cons, List.mapM_cons] at h
    cases hconv : toDatetimeVal parse (Row.get r "last_review") with
    | error e => rw [hconv] at h; exact Except.noConfusion h
    | ok v =>
      rw [hconv] at h
      cases hrest : (t.map (fun r => Row.get r "last_review")).mapM (toDatetimeVal parse) with
      | error e => rw [hrest] at h; exact Except.noConfusion h
      | ok col2 =>
        rw [hrest] at h
        have hcol : col = v :: col2 := (Except.ok.inj h).symm
        subst hcol
        have h1 : convRow parse r = some (Row.set r "last_review" v) := by
          simp [convRow, hconv, Except.toOption]
        rw [List.zip_cons_cons, List.map_cons, List.filterMap_cons_some h1, ih col2 hrest]

/-- Composing the three row-level stages (price filter, date conversion,
bounding-box filter) gives the row-wise pipeline `cleanRow`. -/
theorem filter_convert_filter_eq_filterMap (parse : String → Option ℚ) (lo hi : ℚ)
    (l : List Row) :
    ((l.filter (keepPrice lo hi)).filterMap (convRow parse)).filter keepGeo
      = l.filterMap (cleanRow parse lo hi) := by
  induction l with
  | nil => rfl
  | cons r t ih =>
    by_cases hp : keepPrice lo hi r
    · rw [List.filter_cons_of_pos hp]
      cases hconv : toDatetimeVal parse (Row.get r "last_review") with
      | error e =>
        have h1 : convRow parse r = none := by simp [convRow, hconv, Except.toOption]
        have h2 : cleanRow parse lo hi r = none := by simp [cleanRow, hp, hconv]
        rw [List.filterMap_cons_none h1, List.filterMap_cons_none h2, ih]
      | ok v =>
        have h1 : convRow parse r = some (Row.set r "last_review" v) := by
          simp [convRow, hconv, Except.toOption]
        by_cases hg : keepGeo (Row.set r "last_review" v)
        · have h2 : cleanRow parse lo hi r = some (Row.set r "last_review" v) := by
            simp [cleanRow, hp, hconv, hg]
          rw [List.filterMap_cons_some h1, List.filterMap_cons_some h2,
            List.filter_cons_of_pos hg, ih]
        · have h2 : cleanRow parse lo hi r = none := by simp [cleanRow, hp, hconv, hg]
          rw [List.filterMap_cons_some h1, List.filterMap_cons_none h2,
            List.filter_cons_of_neg hg, ih]
    · have h2 : cleanRow parse lo hi r = none := by simp [cleanRow, hp]
      rw [List.filter_cons_of_neg hp, List.filterMap_cons_none h2, ih]

/-- Constructive characterization of a successful run of the dataframe
pipeline: when the four columns exist and every price-passing row has a
convertible `last_review`, `cleanFrame` succeeds and its output is exactly the
row-wise pipeline `cleanRow` applied under `filterMap`, with the header kept. -/
theorem cleanFrame_eq_ok (parse : String → Option ℚ) (df : DataFrame) (lo hi : ℚ)
    (hp : "price" ∈ df.header) (hlr : "last_review" ∈ df.header)
    (hlon : "longitude" ∈ df.header) (hlat : "latitude" ∈ df.header)
    (hc : ∀ r ∈ df.rows, keepPrice lo hi r = true →
      ∃ v, toDatetimeVal parse (Row.get r "last_review") = .ok v) :
    cleanFrame parse df lo hi
      = .ok ⟨df.header, df.rows.filterMap (cleanRow parse lo hi)⟩ := by
  have hpc : df.getCol "price" = .ok (df.rows.map (fun r => Row.get r "price")) := by
    simp [DataFrame.getCol, hp]
  have hmask : (df.rows.map (fun r => Row.get r "price")).map (fun v => v.between lo hi)
      = df.rows.map (keepPrice lo hi) := by
    rw [List.map_map]; rfl
  have hdf1 : df.filterMask (df.rows.map (keepPrice lo hi))
      = ⟨df.header, df.rows.filter (keepPrice lo hi)⟩ := DataFrame.filterMask_map df _
  have hlr1 : (DataFrame.mk df.header (df.rows.filter (keepPrice lo hi))).getCol "last_review"
      = .ok ((df.rows.filter (keepPrice lo hi)).map (fun r => Row.get r "last_review")) := by
    simp [DataFrame.getCol, hlr]
  obtain ⟨col, hcol⟩ : ∃ col,
      ((df.rows.filter (keepPrice lo hi)).map (fun r => Row.get r "last_review")).mapM
        (toDatetimeVal parse) = .ok col := by
    apply List.mapM_ok_of_forall_ok
    intro v hv
    obtain ⟨r, hr, rfl⟩ := List.mem_map.mp hv
    exact hc r (List.mem_of_mem_filter hr) (List.of_mem_filter hr)
  have hset : (DataFrame.mk df.header (df.rows.filter (keepPrice lo hi))).setCol
      "last_review" col
      = ⟨df.header, (df.rows.filter (keepPrice lo hi)).filterMap (convRow parse)⟩ := by
    unfold DataFrame.setCol
    rw [if_pos hlr]
    exact congrArg (DataFrame.mk df.header) (zip_set_of_mapM_ok parse _ col hcol)
  have hlon2 : (DataFrame.mk df.header
      ((df.rows.filter (keepPrice lo hi)).filterMap (convRow parse))).getCol "longitude"
      = .ok (((df.rows.filter (keepPrice lo hi)).filterMap (convRow parse)).map
        (fun r => Row.get r "longitude")) := by
    simp [DataFrame.getCol, hlon]
  have hlat2 : (DataFrame.mk df.header
      ((df.rows.filter (keepPrice lo hi)).filterMap (convRow parse))).getCol "latitude"
      = .ok (((df.rows.filter (keepPrice lo hi)).filterMap (convRow parse)).map
        (fun r => Row.get r "latitude")) := by
    simp [DataFrame.getCol, hlat]
  have hgeomask : ∀ R : List Row, List.zipWith (fun a b => a && b)
      ((R.map (fun r => Row.get r "longitude")).map (fun v => v.between lonLo lonHi))
      ((R.map (fun r => Row.get r "latitude")).map (fun v => v.between latLo latHi))
      = R.map keepGeo := by
    intro R
    rw [List.map_map, List.map_map, List.zipWith_map_self]
    rfl
  simp only [cleanFrame, hpc, okBind, hmask, hdf1, hlr1, hcol, hset, hlon2, hlat2,
    hgeomask, DataFrame.filterMask_mk_map, filter_convert_filter_eq_filterMap]
  rfl

/-- Inverse characterization: a successful run of the dataframe pipeline
presupposes the four columns and raise-free conversion of every price-passing
row, and its output is the row-wise pipeline. -/
theorem cleanFrame_ok_inv (parse : String → Option ℚ) (df : DataFrame) (lo hi : ℚ)
    (out : DataFrame) (h : cleanFrame parse df lo hi = .ok out) :
    "price" ∈ df.header ∧ "last_review" ∈ df.header ∧
      "longitude" ∈ df.header ∧ "latitude" ∈ df.header ∧
      (∀ r ∈ df.rows, keepPrice lo hi r = true →
        ∃ v, toDatetimeVal parse (Row.get r "last_review") = .ok v) ∧
      out = ⟨df.header, df.rows.filterMap (cleanRow parse lo hi)⟩ := by
  by_cases hp : "price" ∈ df.header
  case neg =>
    have hpc : df.getCol "price" = .error (.missingColumn "price") := by
      simp [DataFrame.getCol, hp]
    simp only [cleanFrame, hpc, errorBind] at h
    exact Except.noConfusion h
  have hpc : df.getCol "price" = .ok (df.rows.map (fun r => Row.get r "price")) := by
    simp [DataFrame.getCol, hp]
  have hmask : (df.rows.map (fun r => Row.get r "price")).map (fun v => v.between lo hi)
      = df.rows.map (keepPrice lo hi) := by
    rw [List.map_map]; rfl
  have hdf1 : df.filterMask (df.rows.map (keepPrice lo hi))
      = ⟨df.header, df.rows.filter (keepPrice lo hi)⟩ := DataFrame.filterMask_map df _
  simp only [cleanFrame, hpc, okBind, hmask, hdf1] at h
  by_cases hlr : "last_review" ∈ df.header
  case neg =>
    have herr : (DataFrame.mk df.header (df.rows.filter (keepPrice lo hi))).getCol
        "last_review" = .error (.missingColumn "last_review") := by
      simp [DataFrame.getCol, hlr]
    simp only [herr, errorBind] at h
    exact Except.noConfusion h
  have hlr1 : (DataFrame.mk df.header (df.rows.filter (keepPrice lo hi))).getCol "last_review"
      = .ok ((df.rows.filter (keepPrice lo hi)).map (fun r => Row.get r "last_review")) := by
    simp [DataFrame.getCol, hlr]
  simp only [hlr1, okBind] at h
  cases hcol : ((df.rows.filter (keepPrice lo hi)).map
      (fun r => Row.get r "last_review")).mapM (toDatetimeVal parse) with
  | error e =>
    simp only [hcol, errorBind] at h
    exact Except.noConfusion h
  | ok col =>
    simp only [hcol, okBind] at h
    have hforall : ∀ r ∈ df.rows, keepPrice lo hi r = true →
        ∃ v, toDatetimeVal parse (Row.get r "last_review") = .ok v := by
      intro r hr hkeep
      exact List.forall_ok_of_mapM_ok _ _ col hcol _
        (List.mem_map_of_mem _ (List.mem_filter.mpr ⟨hr, hkeep⟩))
    have hset : (DataFrame.mk df.header (df.rows.filter (keepPrice lo hi))).setCol
        "last_review" col
        = ⟨df.header, (df.rows.filter (keepPrice lo hi)).filterMap (convRow parse)⟩ := by
      unfold DataFrame.setCol
      rw [if_pos hlr]
      exact congrArg (DataFrame.mk df.header) (zip_set_of_mapM_ok parse _ col hcol)
    simp only [hset] at h
    by_cases hlon : "longitude" ∈ df.header
    case neg =>
      have herr : (DataFrame.mk df.header
          ((df.rows.filter (keepPrice lo hi)).filterMap (convRow parse))).getCol "longitude"
          = .error (.missingColumn "longitude") := by
        simp [DataFrame.getCol, hlon]
      simp only [herr, errorBind] at h
      exact Except.noConfusion h
    have hlon2 : (DataFrame.mk df.header
        ((df.rows.filter (keepPrice lo hi)).filterMap (convRow parse))).getCol "longitude"
        = .ok (((df.rows.filter (keepPrice lo hi)).filterMap (convRow parse)).map
          (fun r => Row.get r "longitude")) := by
      simp [DataFrame.getCol, hlon]
    simp only [hlon2, okBind] at h
    by_cases hlat : "latitude" ∈ df.header
    case neg =>
      have herr : (DataFrame.mk df.header
          ((df.rows.filter (keepPrice lo hi)).filterMap (convRow parse))).getCol "latitude"
          = .error (.missingColumn "latitude") := by
        simp [DataFrame.getCol, hlat]
      simp only [herr, errorBind] at h
      exact Except.noConfusion h
    have hlat2 : (DataFrame.mk df.header
        ((df.rows.filter (keepPrice lo hi)).filterMap (convRow parse))).getCol "latitude"
        = .ok (((df.rows.filter (keepPrice lo hi)).filterMap (convRow parse)).map
          (fun r => Row.get r "latitude")) := by
      simp [DataFrame.getCol, hlat]
    have hgeomask : ∀ R : List Row, List.zipWith (fun a b => a && b)
        ((R.map (fun r => Row.get r "longitude")).map (fun v => v.between lonLo lonHi))
        ((R.map (fun r => Row.get r "latitude")).map (fun v => v.between latLo latHi))
        = R.map keepGeo := by
      intro R
      rw [List.map_map, List.map_map, List.zipWith_map_self]
      rfl
    simp only [hlat2, okBind, hgeomask, DataFrame.filterMask_mk_map,
      filter_convert_filter_eq_filterMap] at h
    exact ⟨hp, hlr, hlon, hlat, hforall, ((Except.ok.inj h).symm)⟩

/-- Unpacking the row-wise pipeline: a row survives with result `r'` iff it
passes the price filter, its `last_review` converts to some `v`, `r'` is the
row with `last_review` overwritten by `v`, and `r'` passes the bounding box. -/
theorem cleanRow_eq_some (parse : String → Option ℚ) (lo hi : ℚ) (r r' : Row) :
    cleanRow parse lo hi r = some r' ↔
      (keepPrice lo hi r = true ∧
       ∃ v, toDatetimeVal parse (Row.get r "last_review") = .ok v ∧
         r' = Row.set r "last_review" v ∧ keepGeo r' = true) := by
  unfold cleanRow
  by_cases hp : keepPrice lo hi r
  · rw [if_pos hp]
    cases hc : toDatetimeVal parse (Row.get r "last_review") with
    | error e =>
      simp only [hp, true_and]
      constructor
      · intro hfalse; exact Option.noConfusion hfalse
      · rintro ⟨v, hv, _, _⟩; exact Except.noConfusion hv
    | ok v =>
      by_cases hg : keepGeo (Row.set r "last_review" v)
      · simp only [hg, if_true, hp, true_and]
        constructor
        · intro hs
          exact ⟨v, rfl, (Option.some.inj hs).symm, by rw [(Option.some.inj hs).symm]; exact hg⟩
        · rintro ⟨v2, hv2, hr', _⟩
          have hveq : v = v2 := Except.ok.inj hv2
          rw [hr', hveq]
      · simp only [hg, if_false, hp, true_and]
        constructor
        · intro hfalse; exact Option.noConfusion hfalse
        · rintro ⟨v2, hv2, hr', hg2⟩
          have hveq : v = v2 := Except.ok.inj hv2
          subst hveq
          rw [hr'] at hg2
          exact absurd hg2 hg
  · rw [if_neg hp]
    constructor
    · intro hfalse; exact Option.noConfusion hfalse
    · rintro ⟨hkp, _⟩; exact absurd hkp hp

/-- Forward membership: an input row passing both filters appears in the
output with its `last_review` converted. -/
theorem mem_out_of_keep (parse : String → Option ℚ) (df : DataFrame) (lo hi : ℚ)
    (out : DataFrame) (r : Row) (h : cleanFrame parse df lo hi = .ok out)
    (hr : r ∈ df.rows) (hkp : keepPrice lo hi r = true) (hkg : keepGeo r = true) :
    ∃ v, toDatetimeVal parse (Row.get r "last_review") = .ok v ∧
      Row.set r "last_review" v ∈ out.rows := by
  obtain ⟨hp, hlr, hlon, hlat, hconv, hout⟩ := cleanFrame_ok_inv parse df lo hi out h
  obtain ⟨v, hv⟩ := hconv r hr hkp
  refine ⟨v, hv, ?_⟩
  rw [hout]
  exact List.mem_filterMap.mpr ⟨r, hr, (cleanRow_eq_some _ _ _ _ _).mpr
    ⟨hkp, v, hv, rfl, by rw [keepGeo_set_lastReview]; exact hkg⟩⟩

/-- Backward membership: every output row is a surviving input row with its
`last_review` converted. -/
theorem mem_out_elim (parse : String → Option ℚ) (df : DataFrame) (lo hi : ℚ)
    (out : DataFrame) (r' : Row) (h : cleanFrame parse df lo hi = .ok out)
    (hmem : r' ∈ out.rows) :
    ∃ r ∈ df.rows, ∃ v, toDatetimeVal parse (Row.get r "last_review") = .ok v ∧
      r' = Row.set r "last_review" v ∧ keepPrice lo hi r = true ∧ keepGeo r' = true := by
  obtain ⟨hp, hlr, hlon, hlat, hconv, hout⟩ := cleanFrame_ok_inv parse df lo hi out h
  rw [hout] at hmem
  obtain ⟨r, hr, hclean⟩ := List.mem_filterMap.mp hmem
  obtain ⟨hp0, v, hv, heq, hg⟩ := (cleanRow_eq_some parse lo hi r r').mp hclean
  exact ⟨r, hr, v, hv, heq, hp0, hg⟩

/-- C1.  For every input table and pair of bounds, when the run succeeds, a row
of the input appears in the output (with its `last_review` normalized in place,
the only modification the pipeline makes) iff its `price` lies in
`[min_price, max_price]`, its longitude lies in `[-74.25, -73.50]` and its
latitude lies in `[40.5, 41.2]`; and every record of the output satisfies all
three bounds. -/
theorem claim1_filter_membership (parse : String → Option ℚ) (df : DataFrame)
    (lo hi : ℚ) (out : DataFrame) (h : cleanFrame parse df lo hi = .ok out) :
    (∀ r ∈ df.rows,
      ((∃ v, toDatetimeVal parse (Row.get r "last_review") = .ok v ∧
          Row.set r "last_review" v ∈ out.rows)
        ↔ (keepPrice lo hi r = true ∧ keepGeo r = true)))
    ∧ (∀ r ∈ out.rows, keepPrice lo hi r = true ∧ keepGeo r = true) := by
  constructor
  · intro r hr
    constructor
    · rintro ⟨v, hv, hmem⟩
      obtain ⟨r0, hr0, v0, hv0, heq, hp0, hg0⟩ := mem_out_elim parse df lo hi out _ h hmem
      constructor
      · have : keepPrice lo hi (Row.set r "last_review" v)
            = keepPrice lo hi (Row.set r0 "last_review" v0) := by rw [heq]
        rw [keepPrice_set_lastReview, keepPrice_set_lastReview] at this
        rw [this]
        exact hp0
      · rw [← keepGeo_set_lastReview r v]
        exact hg0
    · rintro ⟨hkp, hkg⟩
      exact mem_out_of_keep parse df lo hi out r h hr hkp hkg
  · intro r' hmem
    obtain ⟨r0, hr0, v0, hv0, heq, hp0, hg0⟩ := mem_out_elim parse df lo hi out r' h hmem
    refine ⟨?_, hg0⟩
    rw [heq, keepPrice_set_lastReview]
    exact hp0

/-- Values produced by `pd.to_datetime` (timestamps and NaT) are fixed points
of a second conversion. -/
theorem toDatetimeVal_idem (parse : String → Option ℚ) (v w : Val)
    (h : toDatetimeVal parse v = .ok w) : toDatetimeVal parse w = .ok w := by
  cases v with
  | null =>
    have hw : w = .null := (Except.ok.inj h).symm
    rw [hw]; rfl
  | date t =>
    have hw : w = .date t := (Except.ok.inj h).symm
    rw [hw]; rfl
  | num x =>
    have hw : w = .date x := (Except.ok.inj h).symm
    rw [hw]; rfl
  | str s =>
    cases hp : parse s with
    | none =>
      simp only [toDatetimeVal, hp] at h
      exact Except.noConfusion h
    | some t =>
      simp only [toDatetimeVal, hp, Except.ok.injEq] at h
      rw [← h]; rfl

theorem List.filterMap_eq_self_of_forall {α : Type} (f : α → Option α) (l : List α)
    (h : ∀ x ∈ l, f x = some x) : l.filterMap f = l := by
  induction l with
  | nil => rfl
  | cons a t ih =>
    rw [List.filterMap_cons_some (h a (List.mem_cons_self a t)),
      ih (fun x hx => h x (List.mem_cons_of_mem a hx))]

theorem List.filterMap_eq_nil_of_forall {α β : Type} (f : α → Option β) (l : List α)
    (h : ∀ x ∈ l, f x = none) : l.filterMap f = [] := by
  induction l with
  | nil => rfl
  | cons a t ih =>
    rw [List.filterMap_cons_none (h a (List.mem_cons_self a t)),
      ih (fun x hx => h x (List.mem_cons_of_mem a hx))]

/-- C3.  The combined filter is idempotent: a table that is the output of a
successful run is returned unchanged by a second run with the same bounds. -/
theorem claim3_idempotent (parse : String → Option ℚ) (df : DataFrame) (lo hi : ℚ)
    (out : DataFrame) (h : cleanFrame parse df lo hi = .ok out) :
    cleanFrame parse out lo hi = .ok out := by
  obtain ⟨hp, hlr, hlon, hlat, hconv, hout⟩ := cleanFrame_ok_inv parse df lo hi out h
  have hkeep : ∀ r' ∈ out.rows, cleanRow parse lo hi r' = some r' := by
    intro r' hmem
    obtain ⟨r0, hr0, v0, hv0, heq, hp0, hg0⟩ := mem_out_elim parse df lo hi out r' h hmem
    have hkp' : keepPrice lo hi r' = true := by
      rw [heq, keepPrice_set_lastReview]; exact hp0
    have hget : Row.get r' "last_review" = v0 := by rw [heq, Row.get_set_self]
    have hsets : Row.set r' "last_review" v0 = r' := by rw [heq, Row.set_set]
    exact (cleanRow_eq_some parse lo hi r' r').mpr
      ⟨hkp', v0, by rw [hget]; exact toDatetimeVal_idem parse _ v0 hv0, hsets.symm, hg0⟩
  have hconv' : ∀ r' ∈ out.rows, keepPrice lo hi r' = true →
      ∃ v, toDatetimeVal parse (Row.get r' "last_review") = .ok v := by
    intro r' hmem _
    obtain ⟨r0, hr0, v0, hv0, heq, hp0, hg0⟩ := mem_out_elim parse df lo hi out r' h hmem
    exact ⟨v0, by rw [heq, Row.get_set_self]; exact toDatetimeVal_idem parse _ v0 hv0⟩
  have hph : "price" ∈ out.header := by rw [hout]; exact hp
  have hlrh : "last_review" ∈ out.header := by rw [hout]; exact hlr
  have hlonh : "longitude" ∈ out.header := by rw [hout]; exact hlon
  have hlath : "latitude" ∈ out.header := by rw [hout]; exact hlat
  have hrun := cleanFrame_eq_ok parse out lo hi hph hlrh hlonh hlath hconv'
  rw [List.filterMap_eq_self_of_forall _ _ hkeep] at hrun
  exact hrun

/-- A price filter with inverted bounds accepts no value. -/
theorem keepPrice_false_of_gt (lo hi : ℚ) (hgt : hi < lo) (r : Row) :
    keepPrice lo hi r = false := by
  unfold keepPrice
  cases Row.get r "price" with
  | num x =>
    show (decide (lo ≤ x) && decide (x ≤ hi)) = false
    by_cases h1 : lo ≤ x
    · have h2 : ¬x ≤ hi := by intro h2; linarith
      simp [h2]
    · simp [h1]
  | str s => rfl
  | date t => rfl
  | null => rfl

/-- C4.  With `min_price > max_price` no row satisfies the price filter, and a
successful run returns a table with zero rows. -/
theorem claim4_inverted_bounds_empty (parse : String → Option ℚ) (df : DataFrame)
    (lo hi : ℚ) (out : DataFrame) (hgt : hi < lo)
    (h : cleanFrame parse df lo hi = .ok out) :
    out.rows = [] ∧ ∀ r : Row, keepPrice lo hi r = false := by
  refine ⟨?_, fun r => keepPrice_false_of_gt lo hi hgt r⟩
  obtain ⟨_, _, _, _, _, hout⟩ := cleanFrame_ok_inv parse df lo hi out h
  rw [hout]
  exact List.filterMap_eq_nil_of_forall _ _
    (fun r hr => by simp [cleanRow, keepPrice_false_of_gt lo hi hgt r])

/-- C2 (amended).  With ordered bounds `min_price ≤ max_price`, a row whose
price equals `min_price` exactly or `max_price` exactly is retained — the
interval is closed at both ends — provided its coordinates satisfy the
bounding box (and the run succeeds).  The amendment adds the hypothesis
`min_price ≤ max_price`: with inverted bounds the filter drops every row (see
the counterexample and C4). -/
theorem claim2_boundary_inclusive (parse : String → Option ℚ) (df : DataFrame)
    (lo hi : ℚ) (out : DataFrame) (r : Row) (hle : lo ≤ hi)
    (h : cleanFrame parse df lo hi = .ok out) (hr : r ∈ df.rows)
    (hpr : Row.get r "price" = .num lo ∨ Row.get r "price" = .num hi)
    (hkg : keepGeo r = true) :
    ∃ v, toDatetimeVal parse (Row.get r "last_review") = .ok v ∧
      Row.set r "last_review" v ∈ out.rows := by
  have hkp : keepPrice lo hi r = true := by
    unfold keepPrice
    rcases hpr with hh | hh <;> rw [hh] <;>
      show (decide _ && decide _) = true <;> simp [hle]
  exact mem_out_of_keep parse df lo hi out r h hr hkp hkg

/-- C5.  A surviving row whose `last_review` was a parseable date string
appears in the output with `last_review` holding the normalized date value. -/
theorem claim5_parseable_normalized (parse : String → Option ℚ) (df : DataFrame)
    (lo hi : ℚ) (out : DataFrame) (r : Row) (s : String) (t : ℚ)
    (h : cleanFrame parse df lo hi = .ok out) (hr : r ∈ df.rows)
    (hs : Row.get r "last_review" = .str s) (ht : parse s = some t)
    (hkp : keepPrice lo hi r = true) (hkg : keepGeo r = true) :
    Row.set r "last_review" (.date t) ∈ out.rows ∧
      Row.get (Row.set r "last_review" (.date t)) "last_review" = .date t := by
  have hconv : toDatetimeVal parse (Row.get r "last_review") = .ok (.date t) := by
    rw [hs]; simp only [toDatetimeVal, ht]
  obtain ⟨v, hv, hmem⟩ := mem_out_of_keep parse df lo hi out r h hr hkp hkg
  have hveq : v = .date t := (Except.ok.inj (hconv.symm.trans hv)).symm
  rw [hveq] at hmem
  exact ⟨hmem, Row.get_set_self r "last_review" _⟩

/-- C6 (amended).  A row whose `last_review` is an unparsable string and which
passes the price filter makes the whole run abort (the conversion raises under
the default `errors` mode): no output table is produced, so no output record
carries an "unparsable" marker. -/
theorem claim6_unparsable_aborts (parse : String → Option ℚ) (df : DataFrame)
    (lo hi : ℚ) (r : Row) (s : String) (hr : r ∈ df.rows)
    (hkp : keepPrice lo hi r = true)
    (hs : Row.get r "last_review" = .str s) (hps : parse s = none) :
    ∀ out, cleanFrame parse df lo hi ≠ .ok out := by
  intro out h
  obtain ⟨_, _, _, _, hconv, _⟩ := cleanFrame_ok_inv parse df lo hi out h
  obtain ⟨v, hv⟩ := hconv r hr hkp
  rw [hs] at hv
  simp only [toDatetimeVal, hps] at hv
  exact Except.noConfusion hv

theorem List.filterMap_sublist_map {α : Type} (f : α → Option α) (l : List α) :
    List.Sublist (l.filterMap f) (l.map (fun x => (f x).getD x)) := by
  induction l with
  | nil => exact List.Sublist.refl []
  | cons a t ih =>
    cases hf : f a with
    | none =>
      rw [List.filterMap_cons_none hf, List.map_cons]
      exact List.Sublist.cons _ ih
    | some b =>
      rw [List.filterMap_cons_some hf, List.map_cons, hf]
      exact List.Sublist.cons₂ _ ih

/-- C9.  The pipeline preserves the relative order of records: the output rows
form a sublist — same elements in the same relative order — of the input rows
with each survivor replaced in place by its converted form. -/
theorem claim9_order_preserved (parse : String → Option ℚ) (df : DataFrame)
    (lo hi : ℚ) (out : DataFrame) (h : cleanFrame parse df lo hi = .ok out) :
    List.Sublist out.rows (df.rows.map (fun r => (cleanRow parse lo hi r).getD r)) := by
  obtain ⟨_, _, _, _, _, hout⟩ := cleanFrame_ok_inv parse df lo hi out h
  rw [hout]
  exact List.filterMap_sublist_map _ _

/-- C10.  Frame effect: every output row comes from an input row by overwriting
only `last_review` with its converted value; every other column reads the same
value as in the input row. -/
theorem claim10_frame_effect (parse : String → Option ℚ) (df : DataFrame)
    (lo hi : ℚ) (out : DataFrame) (h : cleanFrame parse df lo hi = .ok out) :
    ∀ r' ∈ out.rows, ∃ r ∈ df.rows, ∃ v,
      toDatetimeVal parse (Row.get r "last_review") = .ok v ∧
      r' = Row.set r "last_review" v ∧
      ∀ c, c ≠ "last_review" → Row.get r' c = Row.get r c := by
  intro r' hmem
  obtain ⟨r, hr, v, hv, heq, _, _⟩ := mem_out_elim parse df lo hi out r' h hmem
  refine ⟨r, hr, v, hv, heq, fun c hc => ?_⟩
  rw [heq, Row.get_set_ne r "last_review" c v (fun hcc => hc hcc.symm)]

/-- Rendering of one cell for `to_csv`.  The exact float and timestamp formats
of the library are immaterial here; a timestamp is rendered from its epoch
offset and the null marker as an empty field, as pandas does. -/
def renderVal : Val → String
  | .num x => toString x
  | .str s => s
  | .date t => String.append "@" (toString t)
  | .null => ""

/-- One data line of `to_csv`: the row's cells in header order. -/
def renderRow (header : List String) (r : Row) : List String :=
  header.map (fun c => renderVal (Row.get r c))

/-- `df.to_csv(filename, index=index)` as the list of lines it writes (each
line a list of fields): a header line followed by one line per row; with
`index = true` a leading index column is added, with `index = false` (the call
in line 51 of `run.py`) it is not. -/
def DataFrame.toCsv (df : DataFrame) (index : Bool) : List (List String) :=
  if index then
    (String.append "" "" :: df.header) ::
      List.zipWith (fun i r => toString i :: renderRow df.header r)
        (List.range df.rows.length) df.rows
  else
    df.header :: df.rows.map (renderRow df.header)

/-- Externally visible events of one run of `go_function`, in order. -/
inductive Event where
  /-- `run.use_artifact(...).file()` resolved and downloaded the input -/
  | download
  /-- `pd.read_csv` parsed the local file -/
  | readCsv
  /-- `data_frame.to_csv(filename, index=False)` wrote these lines -/
  | writeFile (content : List (List String))
  /-- `run.log_artifact(artifact)` registered the output artifact -/
  | publish
  /-- `os.remove(filename)` deleted the local file -/
  | removeFile
deriving DecidableEq, Repr

/-- The uncaught exception that aborts a run of `go_function`. -/
inductive RunError where
  /-- input artifact or its backing file missing -/
  | resolutionError
  /-- malformed tabular input -/
  | parseError
  /-- KeyError / date-conversion error in the dataframe pipeline -/
  | cleanError (e : CleanError)
  /-- writing the output file failed -/
  | writeError
  /-- `log_artifact` failed -/
  | uploadError
deriving DecidableEq, Repr

/-- The environment a run executes against: whether artifact resolution
succeeds, what `read_csv` yields (`none` = parse failure), and whether the
file write and the artifact upload succeed. -/
structure Env where
  resolveOk : Bool
  parsed : Option DataFrame
  writeOk : Bool
  uploadOk : Bool

/-- Lines 50–63 of `run.py`, after the dataframe pipeline: write the cleaned
table with `to_csv(filename, index=False)`, register the output artifact with
`log_artifact`, and only then `os.remove` the local file; a pipeline error or
a failing step stops the sequence there and propagates. -/
def runAfterClean (writeOk uploadOk : Bool) :
    Except CleanError DataFrame → List Event × Except RunError Unit
  | .error e => ([.download, .readCsv], .error (.cleanError e))
  | .ok out =>
    if writeOk then
      if uploadOk then
        ([.download, .readCsv, .writeFile (out.toCsv false), .publish, .removeFile],
          .ok ())
      else
        ([.download, .readCsv, .writeFile (out.toCsv false)], .error .uploadError)
    else ([.download, .readCsv], .error .writeError)

/-- Lines 36–63 of `run.py`, after the download: `pd.read_csv` (whose failure
aborts the run), then the dataframe pipeline and the output steps. -/
def runAfterParse (parse : String → Option ℚ) (minPrice maxPrice : ℚ)
    (writeOk uploadOk : Bool) :
    Option DataFrame → List Event × Except RunError Unit
  | none => ([.download], .error .parseError)
  | some df => runAfterClean writeOk uploadOk (cleanFrame parse df minPrice maxPrice)

/-- `go_function` (lines 31–63 of `run.py`) over an environment: resolve and
download the input artifact, parse it, run the dataframe pipeline
(`cleanFrame`), write the cleaned table with `to_csv(..., index=False)`,
register the output artifact, and only then remove the local file.  The result
is the ordered list of completed events together with the outcome; an
uncaught exception stops the sequence at the failing step. -/
def runGo (parse : String → Option ℚ) (env : Env) (minPrice maxPrice : ℚ) :
    List Event × Except RunError Unit :=
  if env.resolveOk then
    runAfterParse parse minPrice maxPrice env.writeOk env.uploadOk env.parsed
  else ([], .error .resolutionError)

/-- C7.  Whatever a run writes to the output file is the serialization of the
filtered table with the header row included and no index column: the first
line is exactly the table's columns and every further line is exactly one
filtered row rendered over those columns. -/
theorem claim7_output_serialization (parse : String → Option ℚ) (env : Env)
    (lo hi : ℚ) (content : List (List String))
    (hmem : Event.writeFile content ∈ (runGo parse env lo hi).1) :
    ∃ df out, env.parsed = some df ∧ cleanFrame parse df lo hi = .ok out ∧
      content = DataFrame.toCsv out false ∧
      content = out.header :: out.rows.map (renderRow out.header) := by
  obtain ⟨resolveOk, parsed, writeOk, uploadOk⟩ := env
  cases resolveOk
  case false => simp [runGo] at hmem
  case true =>
    cases parsed with
    | none => simp [runGo, runAfterParse] at hmem
    | some df =>
      simp only [runGo, if_true] at hmem
      rw [show runAfterParse parse lo hi writeOk uploadOk (some df)
          = runAfterClean writeOk uploadOk (cleanFrame parse df lo hi) from rfl] at hmem
      cases hc : cleanFrame parse df lo hi with
      | error e =>
        rw [hc] at hmem
        simp [runAfterClean] at hmem
      | ok out =>
        rw [hc] at hmem
        cases writeOk
        case false => simp [runAfterClean] at hmem
        case true =>
          cases uploadOk
          case false =>
            simp [runAfterClean] at hmem
            exact ⟨df, out, rfl, hc, hmem, by rw [hmem]; rfl⟩
          case true =>
            simp [runAfterClean] at hmem
            exact ⟨df, out, rfl, hc, hmem, by rw [hmem]; rfl⟩

/-- C8.  Publication is atomic: (i) a run that fails — at resolution, parsing,
cleaning, writing, or the upload itself — publishes no output artifact;
(ii) the local file is removed only in a fully successful run, whose trace
deletes the file strictly after the artifact was registered; (iii) when every
step up to the upload succeeds but the upload fails, the error propagates, the
output file had been written, and the file is not removed (it may remain on
disk). -/
theorem claim8_atomic_publication (parse : String → Option ℚ) (env : Env) (lo hi : ℚ) :
    (∀ e : RunError, (runGo parse env lo hi).2 = .error e →
      Event.publish ∉ (runGo parse env lo hi).1)
    ∧ (Event.removeFile ∈ (runGo parse env lo hi).1 →
        ∃ content, (runGo parse env lo hi).1
            = [.download, .readCsv, .writeFile content, .publish, .removeFile]
          ∧ (runGo parse env lo hi).2 = .ok ())
    ∧ (∀ df out, env.resolveOk = true → env.parsed = some df →
        cleanFrame parse df lo hi = .ok out → env.writeOk = true →
        env.uploadOk = false →
        (runGo parse env lo hi).2 = .error .uploadError
          ∧ Event.writeFile (DataFrame.toCsv out false) ∈ (runGo parse env lo hi).1
          ∧ Event.removeFile ∉ (runGo parse env lo hi).1) := by
  obtain ⟨resolveOk, parsed, writeOk, uploadOk⟩ := env
  cases resolveOk
  case false =>
    refine ⟨fun e _ hmem => by simp [runGo] at hmem,
      fun hmem => by simp [runGo] at hmem, ?_⟩
    intro df out hres0 _ _ _ _
    exact Bool.noConfusion hres0
  case true =>
    cases parsed with
    | none =>
      refine ⟨fun e _ hmem => by simp [runGo, runAfterParse] at hmem,
        fun hmem => by simp [runGo, runAfterParse] at hmem, ?_⟩
      intro df out _ hp0 _ _ _
      exact Option.noConfusion hp0
    | some df =>
      have hrun : runGo parse ⟨true, some df, writeOk, uploadOk⟩ lo hi
          = runAfterClean writeOk uploadOk (cleanFrame parse df lo hi) := rfl
      rw [hrun]
      cases hc : cleanFrame parse df lo hi with
      | error e =>
        refine ⟨fun e2 _ hmem => by simp [runAfterClean] at hmem,
          fun hmem => by simp [runAfterClean] at hmem, ?_⟩
        intro df2 out2 _ hp0 hc0 _ _
        have hdf : df2 = df := (Option.some.inj hp0).symm
        rw [hdf, hc] at hc0
        exact Except.noConfusion hc0
      | ok out =>
        cases writeOk
        case false =>
          refine ⟨fun e2 _ hmem => by simp [runAfterClean] at hmem,
            fun hmem => by simp [runAfterClean] at hmem, ?_⟩
          intro df2 out2 _ _ _ hw0 _
          exact Bool.noConfusion hw0
        case true =>
          cases uploadOk
          case true =>
            refine ⟨fun e2 he _ => by exact Except.noConfusion he, ?_, ?_⟩
            · intro _
              exact ⟨DataFrame.toCsv out false, rfl, rfl⟩
            · intro df2 out2 _ _ _ _ hu0
              exact Bool.noConfusion hu0
          case false =>
            refine ⟨fun e2 _ hmem => by simp [runAfterClean] at hmem,
              fun hmem => by simp [runAfterClean] at hmem, ?_⟩
            intro df2 out2 _ hp0 hc0 _ _
            have hdf : df2 = df := (Option.some.inj hp0).symm
            rw [hdf, hc] at hc0
            have hout : out2 = out := Except.ok.inj hc0.symm
            rw [hout]
            refine ⟨rfl, by simp [runAfterClean], by simp [runAfterClean]⟩

/-! ## Concrete data for witnesses and counterexamples -/

/-- A concrete stand-in for the library's date parser: it accepts exactly the
string `"2019-05-01"`, mapping it to the epoch offset 18017 (its day number).
All claim theorems are proved for every parser; this one makes them
computable on the sample data. -/
def egParse : String → Option ℚ := fun s => if s = "2019-05-01" then some 18017 else none

def egHeader : List String := ["id", "price", "longitude", "latitude", "last_review"]

/-- In range, in the box, parseable date. -/
def egRow1 : Row := [("id", .num 1), ("price", .num 50), ("longitude", .num (-74)),
  ("latitude", .num 41), ("last_review", .str "2019-05-01")]

/-- Price out of range. -/
def egRow2 : Row := [("id", .num 2), ("price", .num 500), ("longitude", .num (-74)),
  ("latitude", .num 41), ("last_review", .null)]

/-- Longitude out of the box. -/
def egRow3 : Row := [("id", .num 3), ("price", .num 50), ("longitude", .num (-75)),
  ("latitude", .num 41), ("last_review", .null)]

def egDf : DataFrame := ⟨egHeader, [egRow1, egRow2, egRow3]⟩

/-- The cleaned result of `egDf` with bounds `[10, 100]`. -/
def egOut : DataFrame := ⟨egHeader, [Row.set egRow1 "last_review" (.date 18017)]⟩

theorem egClean : cleanFrame egParse egDf 10 100 = .ok egOut := rfl

def egShortHeader : List String := ["price", "longitude", "latitude", "last_review"]

/-- Price exactly at the lower bound 10. -/
def egRowMin : Row := [("price", .num 10), ("longitude", .num (-74)),
  ("latitude", .num 41), ("last_review", .null)]

def egDfMin : DataFrame := ⟨egShortHeader, [egRowMin]⟩

/-- Price 1, used with the inverted bounds `min_price = 1 > 0 = max_price`. -/
def egRowInv : Row := [("price", .num 1), ("longitude", .num (-74)),
  ("latitude", .num 41), ("last_review", .null)]

def egDfInv : DataFrame := ⟨egShortHeader, [egRowInv]⟩

/-- Price in range but `last_review` an unparsable string. -/
def egRowBad : Row := [("price", .num 50), ("longitude", .num (-74)),
  ("latitude", .num 41), ("last_review", .str "garbage")]

def egDfBad : DataFrame := ⟨egShortHeader, [egRowBad]⟩

/-- Environment where every external step succeeds. -/
def egEnv : Env := ⟨true, some egDf, true, true⟩

/-- Environment where the artifact upload fails. -/
def egEnvFail : Env := ⟨true, some egDf, true, false⟩

/-! ## Counterexamples -/

/-- C2 counterexample.  With bounds `min_price = 1 > 0 = max_price` the row
whose price equals `min_price` exactly and whose coordinates satisfy the
bounding box is dropped — the run succeeds with an empty result — refuting the
claim as stated (quantified over every pair of bounds). -/
theorem claim2_counterexample :
    Row.get egRowInv "price" = .num 1 ∧ keepGeo egRowInv = true ∧
      keepPrice 1 0 egRowInv = false ∧
      cleanFrame egParse egDfInv 1 0 = .ok ⟨egShortHeader, []⟩ :=
  ⟨rfl, by decide, by decide, rfl⟩

/-- C6 counterexample.  A row that passes the price filter but has an
unparsable `last_review` aborts the whole run with a conversion error — no
output table exists, so no output record carries an "unparsable" marker,
refuting the claim that the run does not fail. -/
theorem claim6_counterexample :
    keepPrice 10 100 egRowBad = true ∧
      cleanFrame egParse egDfBad 10 100 = .error .unparsableDate :=
  ⟨by decide, rfl⟩

/-! ## Witnesses -/

theorem claim1_witness :
    ∃ v, toDatetimeVal egParse (Row.get egRow1 "last_review") = .ok v ∧
      Row.set egRow1 "last_review" v ∈ egOut.rows := by
  have h := claim1_filter_membership egParse egDf 10 100 egOut rfl
  exact (h.1 egRow1 (by decide)).mpr ⟨by decide, by decide⟩

theorem claim2_witness :
    ∃ v, toDatetimeVal egParse (Row.get egRowMin "last_review") = .ok v ∧
      Row.set egRowMin "last_review" v ∈
        (DataFrame.mk egShortHeader [egRowMin]).rows :=
  claim2_boundary_inclusive egParse egDfMin 10 100 ⟨egShortHeader, [egRowMin]⟩
    egRowMin (by decide) rfl (by decide) (Or.inl rfl) (by decide)

theorem claim3_witness : cleanFrame egParse egOut 10 100 = .ok egOut :=
  claim3_idempotent egParse egDf 10 100 egOut rfl

theorem claim4_witness : (DataFrame.mk egHeader []).rows = [] :=
  (claim4_inverted_bounds_empty egParse egDf 1 0 ⟨egHeader, []⟩ (by decide) rfl).1

theorem claim5_witness :
    Row.set egRow1 "last_review" (.date 18017) ∈ egOut.rows ∧
      Row.get (Row.set egRow1 "last_review" (.date 18017)) "last_review" = .date 18017 :=
  claim5_parseable_normalized egParse egDf 10 100 egOut egRow1 "2019-05-01" 18017
    rfl (by decide) rfl rfl (by decide) (by decide)

theorem claim6_witness : cleanFrame egParse egDfBad 10 100 ≠ .ok egDfBad :=
  claim6_unparsable_aborts egParse egDfBad 10 100 egRowBad "garbage"
    (by decide) (by decide) rfl rfl egDfBad

theorem claim7_witness :
    ∃ df out, egEnv.parsed = some df ∧ cleanFrame egParse df 10 100 = .ok out ∧
      DataFrame.toCsv egOut false = DataFrame.toCsv out false ∧
      DataFrame.toCsv egOut false
        = out.header :: out.rows.map (renderRow out.header) := by
  have hmem : Event.writeFile (DataFrame.toCsv egOut false)
      ∈ (runGo egParse egEnv 10 100).1 := by
    have htr : (runGo egParse egEnv 10 100).1
        = [.download, .readCsv, .writeFile (DataFrame.toCsv egOut false),
           .publish, .removeFile] := rfl
    rw [htr]
    exact List.mem_cons_of_mem _ (List.mem_cons_of_mem _ (List.mem_cons_self _ _))
  exact claim7_output_serialization egParse egEnv 10 100
    (DataFrame.toCsv egOut false) hmem

theorem claim8_witness :
    (runGo egParse egEnvFail 10 100).2 = .error .uploadError
      ∧ Event.writeFile (DataFrame.toCsv egOut false) ∈ (runGo egParse egEnvFail 10 100).1
      ∧ Event.removeFile ∉ (runGo egParse egEnvFail 10 100).1 :=
  (claim8_atomic_publication egParse egEnvFail 10 100).2.2 egDf egOut rfl rfl rfl rfl rfl

theorem claim9_witness :
    List.Sublist egOut.rows (egDf.rows.map (fun r => (cleanRow egParse 10 100 r).getD r)) :=
  claim9_order_preserved egParse egDf 10 100 egOut rfl

theorem claim10_witness :
    ∃ r ∈ egDf.rows, ∃ v,
      toDatetimeVal egParse (Row.get r "last_review") = .ok v ∧
      Row.set egRow1 "last_review" (.date 18017) = Row.set r "last_review" v ∧
      ∀ c, c ≠ "last_review" →
        Row.get (Row.set egRow1 "last_review" (.date 18017)) c = Row.get r c :=
  claim10_frame_effect egParse egDf 10 100 egOut rfl
    (Row.set egRow1 "last_review" (.date 18017)) (by decide)

end BasicCleaning
